import Mathlib

/-!
Shallow embedding of the point-to-transaction compiler of
src/ics_clients.py (class ModbusClient), the core specified in spec.md.

The embedding models:
  * the point directory (the slave_points list of point descriptors),
  * the FUNCTION_MAP table of Modbus operation codes,
  * the grouping loop of ModbusClient._requestPoints (lines 138-200),
  * the final reply assembly (line 202),
  * the readPoints / writePoints entry points.

The external transport capability (self.master.execute) is modelled by a
total memory function for reads; a write issued with a None operation
code (a read-only block type) is modelled as the transport raising, which
is what modbus_tk does on an unsupported function code, and aborts the
call (IcsError.transportError).  Addresses are natural numbers; Python
integer arithmetic on addresses is modelled with Int where a subtraction
occurs, exactly as the source computes it.
-/

namespace ICS

/-- Modbus block types, mirroring the modbus_tk block-type constants used
as keys of FUNCTION_MAP (cst.COILS, cst.DISCRETE_INPUTS,
cst.HOLDING_REGISTERS, cst.ANALOG_INPUTS). -/
inductive BlockType
  | coils
  | discreteInputs
  | holdingRegisters
  | analogInputs
deriving DecidableEq, Repr

/-- Request direction, mirroring the rw argument of _requestPoints:
RW.r is 'r' (read), RW.w is 'w' (write). -/
inductive RW
  | r
  | w
deriving DecidableEq, Repr

/-- One point descriptor of the slave_points list: its name and, from
metadata.modbus, its block type and address (source lines 145-151). -/
structure PointDesc where
  name : String
  blocktype : BlockType
  addr : Nat
deriving DecidableEq, Repr

/-- Shortcut lambda getaddr (line 151): the point's address as a Python
integer, hence Int here. -/
def getaddr (p : PointDesc) : Int :=
  (p.addr : Int)

/-- One row of FUNCTION_MAP: the operation codes at tuple indices 0, 1, 2,
namely (read, write-single, write-multiple); the write codes are None for
the read-only block types. -/
structure OpRow where
  read : Nat
  writeSingle : Option Nat
  writeMultiple : Option Nat
deriving DecidableEq, Repr

/-- FUNCTION_MAP of ModbusClient (lines 87-96), with the numeric values
of the modbus_tk.defines constants: READ_COILS=1, READ_DISCRETE_INPUTS=2,
READ_HOLDING_REGISTERS=3, READ_INPUT_REGISTERS=4, WRITE_SINGLE_COIL=5,
WRITE_SINGLE_REGISTER=6, WRITE_MULTIPLE_COILS=15,
WRITE_MULTIPLE_REGISTERS=16. -/
def FUNCTION_MAP : BlockType → OpRow
  | .coils => ⟨1, some 5, some 15⟩
  | .discreteInputs => ⟨2, none, none⟩
  | .holdingRegisters => ⟨3, some 6, some 16⟩
  | .analogInputs => ⟨4, none, none⟩

/-- A Modbus client: the slave address from to_config, the point
directory slave_points, and the class constant MAXDISTANCE (default 5,
line 82). -/
structure ModbusClient where
  slaveAddress : Nat
  slave_points : List PointDesc
  MAXDISTANCE : Nat := 5

/-- Shortcut lambda closeenough (lines 154-155): whether two points are
close enough to place in the same packet.  It is written exactly as the
source writes it: getaddr p - getaddr q compared against MAXDISTANCE for
reads and 1 for writes, with p the current point and q the next one at
the call site (line 179). -/
def closeenough (rw : RW) (MAXDISTANCE : Nat) (p q : PointDesc) : Bool :=
  decide (getaddr p - getaddr q ≤ (if rw = .r then (MAXDISTANCE : Int) else 1))

/-- An entry of the requestPoints accumulator list (line 175): the tuple
(pt name, reqOffset, pt). -/
abbrev ReqEntry := String × Int × PointDesc

/-- Payload of one transport call: reads carry quantity_of_x, writes
carry output_value, a single value or a list (lines 191, 196-199). -/
inductive Payload
  | readQty (quantity : Int)
  | writeOne (value : Nat)
  | writeMany (values : List Nat)
deriving DecidableEq, Repr

/-- One call issued to self.master.execute: the argument list of lines
186-188 plus the keyword payload.  The operation code is an Option
because FUNCTION_MAP holds None in the write slots of read-only block
types. -/
structure Txn where
  slave : Nat
  opcode : Option Nat
  startAddress : Int
  payload : Payload
deriving DecidableEq, Repr

/-- Errors surfaced by a call.  unknownPoint models the KeyError raised
by replies[name] at line 202 when a requested name resolved to no
descriptor; transportError models the transport layer (modbus_tk)
raising, in particular on a None function code. -/
inductive IcsError
  | unknownPoint
  | transportError
deriving DecidableEq, Repr

/-- Address of the first member of a group: getaddr(requestPoints[0][2])
(line 184).  Groups built by the loop are never empty; the default 0 on
an empty list is unreachable. -/
def headAddr (g : List ReqEntry) : Int :=
  match g with
  | [] => 0
  | m :: _ => getaddr m.2.2

/-- Name of the first member of a group: requestPoints[0][0] (line 198). -/
def headName (g : List ReqEntry) : String :=
  match g with
  | [] => ""
  | m :: _ => m.1

/-- Offset of the last member of a group: requestPoints[-1][1]
(line 190). -/
def lastOffset (g : List ReqEntry) : Int :=
  match g.getLast? with
  | some m => m.2.1
  | none => 0

/-- The transport call built for one finished group (lines 183-199):
operation code selected by commandType = 0 if read else 2 if the group
has more than one member else 1; start address of the first member; for
reads quantity_of_x = last offset + 1, for writes output_value is the
single value or the list of values of the members in order. -/
def mkTxn (slave : Nat) (bt : BlockType) (rw : RW) (values : String → Nat)
    (g : List ReqEntry) : Txn :=
  { slave := slave
    opcode :=
      if rw = .r then some (FUNCTION_MAP bt).read
      else if g.length > 1 then (FUNCTION_MAP bt).writeMultiple
      else (FUNCTION_MAP bt).writeSingle
    startAddress := headAddr g
    payload :=
      if rw = .r then .readQty (lastOffset g + 1)
      else if g.length > 1 then .writeMany (g.map fun m => values m.1)
      else .writeOne (values (headName g)) }

/-- The reqBaseAddr update of lines 170-174: when requestPoints is empty
the current point starts a group and its address becomes the base,
otherwise the base is unchanged. -/
def reqBase (requestPoints : List ReqEntry) (reqBaseAddr : Int)
    (pt : PointDesc) : Int :=
  if requestPoints.isEmpty then getaddr pt else reqBaseAddr

/-- The tuple appended to requestPoints at line 175: (pt name, reqOffset,
pt), where reqOffset is 0 for the first point of a group and
getaddr pt - reqBaseAddr otherwise (lines 172, 174). -/
def reqEntry (requestPoints : List ReqEntry) (reqBaseAddr : Int)
    (pt : PointDesc) : ReqEntry :=
  (pt.name,
   if requestPoints.isEmpty then 0
   else getaddr pt - reqBase requestPoints reqBaseAddr pt,
   pt)

/-- The grouping part of the loop of lines 168-181, as a recursion on the
sorted point list.  It carries reqBaseAddr and the requestPoints
accumulator; a group is emitted when endOfGroup holds, i.e. at the end of
the list or when closeenough fails on the current and next point.  The
initial reqBaseAddr argument is irrelevant: the source leaves it unset
until the first point of a group assigns it. -/
def mkGroups (rw : RW) (maxd : Nat) (reqBaseAddr : Int)
    (requestPoints : List ReqEntry) :
    List PointDesc → List (List ReqEntry)
  | [] => []
  | pt :: rest =>
    let base := reqBase requestPoints reqBaseAddr pt
    let rp := requestPoints ++ [reqEntry requestPoints reqBaseAddr pt]
    let endOfGroup :=
      match rest with
      | [] => true
      | next :: _ => !(closeenough rw maxd pt next)
    if endOfGroup then rp :: mkGroups rw maxd base [] rest
    else mkGroups rw maxd base rp rest

/-- Reply entries parsed from one read group's reply (lines 192-194):
for each member t the pair (t[0], reply[t[1]]), where the reply array
covers the span from the start address, so reply[i] is the memory cell at
startAddress + i of the group's block type. -/
def groupEntries (bt : BlockType) (mem : BlockType → Int → Nat)
    (g : List ReqEntry) : List (String × Nat) :=
  g.map fun m => (m.1, mem bt (headAddr g + m.2.1))

/-- The loop of lines 168-200 exactly as the source interleaves it:
points are accumulated into requestPoints and, whenever endOfGroup holds,
the transaction for the finished group is issued immediately and (for
reads) its reply entries collected, before the loop continues with an
empty accumulator. -/
def requestLoop (slave : Nat) (bt : BlockType) (rw : RW) (maxd : Nat)
    (mem : BlockType → Int → Nat) (values : String → Nat)
    (reqBaseAddr : Int) (requestPoints : List ReqEntry) :
    List PointDesc → List Txn × Except IcsError (List (String × Nat))
  | [] => ([], .ok [])
  | pt :: rest =>
    let base := reqBase requestPoints reqBaseAddr pt
    let rp := requestPoints ++ [reqEntry requestPoints reqBaseAddr pt]
    let endOfGroup :=
      match rest with
      | [] => true
      | next :: _ => !(closeenough rw maxd pt next)
    if endOfGroup then
      let txn := mkTxn slave bt rw values rp
      match rw with
      | .r =>
        let res := requestLoop slave bt .r maxd mem values base [] rest
        (txn :: res.1, res.2.map fun es => groupEntries bt mem rp ++ es)
      | .w =>
        match txn.opcode with
        | none => ([txn], .error .transportError)
        | some _ =>
          let res := requestLoop slave bt .w maxd mem values base [] rest
          (txn :: res.1, res.2)
    else requestLoop slave bt rw maxd mem values base rp rest

/-- The per-type point list (lines 139-147): the points of slave_points
whose name occurs among the requested names and whose block type is bt,
in directory order. -/
def pointsByType (slave_points : List PointDesc) (points : List String)
    (bt : BlockType) : List PointDesc :=
  (slave_points.filter fun pt => points.contains pt.name).filter
    fun pt => decide (pt.blocktype = bt)

/-- Comparison underlying the sort of line 161: ascending by address. -/
def addrLE (p q : PointDesc) : Prop :=
  getaddr p ≤ getaddr q

instance : DecidableRel addrLE := fun p q =>
  inferInstanceAs (Decidable (getaddr p ≤ getaddr q))

instance : IsTotal PointDesc addrLE :=
  ⟨fun p q => le_total (getaddr p) (getaddr q)⟩

instance : IsTrans PointDesc addrLE :=
  ⟨fun _ _ _ h1 h2 => le_trans h1 h2⟩

/-- Ascending stable sort by address (line 161):
pointsByType[pointType].sort with key getaddr. -/
def sortByAddr (pts : List PointDesc) : List PointDesc :=
  pts.insertionSort addrLE

/-- The groups the loop forms for one block type of one call. -/
def typeGroups (maxd : Nat) (slave_points : List PointDesc)
    (points : List String) (rw : RW) (bt : BlockType) :
    List (List ReqEntry) :=
  mkGroups rw maxd 0 [] (sortByAddr (pointsByType slave_points points bt))

/-- Iteration order over pointsByType.keys() (line 159): one fixed order
of the four block types; no claim depends on which order the dictionary
yields. -/
def blockTypeOrder : List BlockType :=
  [.coils, .discreteInputs, .holdingRegisters, .analogInputs]

/-- All transaction groups of one call, tagged with their block type, in
block-type iteration order. -/
def allGroups (maxd : Nat) (slave_points : List PointDesc)
    (points : List String) (rw : RW) : List (BlockType × List ReqEntry) :=
  blockTypeOrder.flatMap fun bt =>
    (typeGroups maxd slave_points points rw bt).map fun g => (bt, g)

/-- The transaction built for one tagged group. -/
def mkTxnFor (slave : Nat) (rw : RW) (values : String → Nat)
    (p : BlockType × List ReqEntry) : Txn :=
  mkTxn slave p.1 rw values p.2

/-- All reply entries a read call collects, across block types in
iteration order. -/
def readReplies (maxd : Nat) (slave_points : List PointDesc)
    (names : List String) (mem : BlockType → Int → Nat) :
    List (String × Nat) :=
  blockTypeOrder.flatMap fun bt =>
    (typeGroups maxd slave_points names .r bt).flatMap (groupEntries bt mem)

/-- The outer loop over block types (line 159): runs the grouping loop on
each block type's sorted point list, concatenating the issued
transactions and the collected reply entries, and stopping if the
transport raised. -/
def runTypes (slave : Nat) (rw : RW) (maxd : Nat)
    (mem : BlockType → Int → Nat) (values : String → Nat)
    (slave_points : List PointDesc) (points : List String) :
    List BlockType → List Txn × Except IcsError (List (String × Nat))
  | [] => ([], .ok [])
  | bt :: rest =>
    let res := requestLoop slave bt rw maxd mem values 0 []
      (sortByAddr (pointsByType slave_points points bt))
    match res.2 with
    | .error e => (res.1, .error e)
    | .ok entries =>
      let res2 := runTypes slave rw maxd mem values slave_points points rest
      (res.1 ++ res2.1, res2.2.map fun es => entries ++ es)

/-- Lookup in the replies dictionary with Python dict semantics: a later
update (line 194) overrides an earlier one for the same key. -/
def dictGet : List (String × Nat) → String → Option Nat
  | [], _ => none
  | (k, v) :: rest, n =>
    match dictGet rest n with
    | some w => some w
    | none => if k = n then some v else none

/-- The final assembly of line 202: replies[name] for name in points, in
the caller's order, failing (KeyError) at a name with no reply. -/
def lookupAll (replies : List (String × Nat)) :
    List String → Option (List Nat)
  | [] => some []
  | n :: ns =>
    match dictGet replies n, lookupAll replies ns with
    | some v, some vs => some (v :: vs)
    | _, _ => none

/-- The points argument of readPoints: Python 2 strings have no
attribute named after iteration, so a bare name reaches the hasattr test
of line 142 and is wrapped into a one-element list; an actual sequence
of names passes through unchanged. -/
inductive PointsArg
  | single (name : String)
  | many (names : List String)

/-- Normalization of lines 142-143: make points iterable. -/
def normalizePoints : PointsArg → List String
  | .single n => [n]
  | .many ns => ns

/-- ModbusClient._requestPoints (lines 117-202): group the resolved
points by block type, sort each list by address, run the grouping loop
issuing one transport call per finished group, then either return the
replies in the caller's requested name order (reads) or None (writes).
The first component is the trace of calls issued to the transport. -/
def requestPoints (client : ModbusClient) (mem : BlockType → Int → Nat)
    (points : PointsArg) (rw : RW) (values : String → Nat) :
    List Txn × Except IcsError (Option (List Nat)) :=
  let pointNames := normalizePoints points
  let res := runTypes client.slaveAddress rw client.MAXDISTANCE mem values
    client.slave_points pointNames blockTypeOrder
  match res.2 with
  | .error e => (res.1, .error e)
  | .ok replies =>
    match rw with
    | .r =>
      match lookupAll replies pointNames with
      | some vals => (res.1, .ok (some vals))
      | none => (res.1, .error .unknownPoint)
    | .w => (res.1, .ok none)

/-- ModbusClient.readPoints (lines 209-220): _requestPoints with rw='r';
the values dictionary is unused on the read path. -/
def readPoints (client : ModbusClient) (mem : BlockType → Int → Nat)
    (points : PointsArg) : List Txn × Except IcsError (Option (List Nat)) :=
  requestPoints client mem points .r fun _ => 0

/-- The keys of dict(pointsvalues): each name once (lines 231-235). -/
def dictKeys (pointsvalues : List (String × Nat)) : List String :=
  (pointsvalues.map Prod.fst).eraseDups

/-- The value mapping of dict(pointsvalues): the last binding of a name
wins, as in a Python dict built from pairs.  The default 0 is never
consulted: values[p[0]] is only evaluated at names of the keys list. -/
def dictValues (pointsvalues : List (String × Nat)) (n : String) : Nat :=
  match dictGet pointsvalues n with
  | some v => v
  | none => 0

/-- ModbusClient.writePoints (lines 223-236): build the values dict from
the pairs, take points = values.keys(), and call _requestPoints with
rw='w'. -/
def writePoints (client : ModbusClient) (mem : BlockType → Int → Nat)
    (pointsvalues : List (String × Nat)) :
    List Txn × Except IcsError (Option (List Nat)) :=
  requestPoints client mem (.many (dictKeys pointsvalues)) .w
    (dictValues pointsvalues)

/-- Directory lookup of a name among the point descriptors: the
descriptor row of slave_points bearing the name (lines 145-147). -/
def resolveDesc (slave_points : List PointDesc) (n : String) :
    Option PointDesc :=
  slave_points.find? fun pt => pt.name == n

/-- The value a resolving name denotes under a given transport memory:
the memory cell of its descriptor's block type at its address. -/
def resolvedValue (mem : BlockType → Int → Nat)
    (slave_points : List PointDesc) (n : String) : Nat :=
  match resolveDesc slave_points n with
  | some pt => mem pt.blocktype (getaddr pt)
  | none => 0

/-! Concrete instances used to evaluate the pipeline on the inputs named
by the specification's testable properties. -/

/-- Transport memory used by the concrete evaluations: the cell at
address a of any block holds 100 * a. -/
def memTest : BlockType → Int → Nat := fun _ a => a.toNat * 100

/-- Holding-register points at addresses 10, 12, 14, 25: the read
grouping example of the specification. -/
def clientRead4 : ModbusClient :=
  { slaveAddress := 1
    slave_points :=
      [⟨"a", .holdingRegisters, 10⟩, ⟨"b", .holdingRegisters, 12⟩,
       ⟨"c", .holdingRegisters, 14⟩, ⟨"d", .holdingRegisters, 25⟩] }

/-- Holding-register points at addresses 10, 11, 13: the write
contiguity example of the specification. -/
def clientWrite3 : ModbusClient :=
  { slaveAddress := 1
    slave_points :=
      [⟨"x", .holdingRegisters, 10⟩, ⟨"y", .holdingRegisters, 11⟩,
       ⟨"z", .holdingRegisters, 13⟩] }

/-- A single discrete-input (read-only block type) point at address 3. -/
def clientReadOnly : ModbusClient :=
  { slaveAddress := 1, slave_points := [⟨"p", .discreteInputs, 3⟩] }

/-- A directory holding only the coil point a at address 0; the name
ghost resolves to nothing here. -/
def clientSmall : ModbusClient :=
  { slaveAddress := 1, slave_points := [⟨"a", .coils, 0⟩] }

/-- A single coil point at address 4, for the one-member-group opcode
check. -/
def clientOneCoil : ModbusClient :=
  { slaveAddress := 9, slave_points := [⟨"x", .coils, 4⟩] }

/-! Equation lemmas for the grouping loop. -/

/-- Grouping an empty point list yields no groups. -/
theorem mkGroups_nil (rw : RW) (maxd : Nat) (base : Int)
    (acc : List ReqEntry) : mkGroups rw maxd base acc [] = [] := rfl

/-- At the last point of the list endOfGroup holds and the accumulated
group is emitted. -/
theorem mkGroups_last (rw : RW) (maxd : Nat) (base : Int)
    (acc : List ReqEntry) (pt : PointDesc) :
    mkGroups rw maxd base acc [pt] = [acc ++ [reqEntry acc base pt]] := rfl

/-- When closeenough fails on the current and next point, the
accumulated group is emitted and the loop restarts with an empty
accumulator. -/
theorem mkGroups_break (rw : RW) (maxd : Nat) (base : Int)
    (acc : List ReqEntry) (pt next : PointDesc) (rest : List PointDesc)
    (hce : closeenough rw maxd pt next = false) :
    mkGroups rw maxd base acc (pt :: next :: rest)
      = (acc ++ [reqEntry acc base pt])
          :: mkGroups rw maxd (reqBase acc base pt) [] (next :: rest) := by
  simp [mkGroups, hce]

/-- When closeenough holds on the current and next point, the loop
continues accumulating into the same group. -/
theorem mkGroups_cont (rw : RW) (maxd : Nat) (base : Int)
    (acc : List ReqEntry) (pt next : PointDesc) (rest : List PointDesc)
    (hce : closeenough rw maxd pt next = true) :
    mkGroups rw maxd base acc (pt :: next :: rest)
      = mkGroups rw maxd (reqBase acc base pt)
          (acc ++ [reqEntry acc base pt]) (next :: rest) := by
  simp [mkGroups, hce]

/-- Projection: the name component of the appended tuple is the point's
name. -/
theorem reqEntry_name (acc : List ReqEntry) (base : Int) (pt : PointDesc) :
    (reqEntry acc base pt).1 = pt.name := rfl

/-- Projection: the descriptor component of the appended tuple is the
point itself. -/
theorem reqEntry_pt (acc : List ReqEntry) (base : Int) (pt : PointDesc) :
    (reqEntry acc base pt).2.2 = pt := rfl

/-- The recorded offset always equals the point's address minus the
updated base: for the first point of a group both sides are 0. -/
theorem reqEntry_off (acc : List ReqEntry) (base : Int) (pt : PointDesc) :
    (reqEntry acc base pt).2.1 = getaddr pt - reqBase acc base pt := by
  cases acc <;> simp [reqEntry, reqBase]

/-! Structural lemmas about the grouping loop. -/

/-- Every group the grouping loop emits is nonempty. -/
theorem mkGroups_ne_nil (rw : RW) (maxd : Nat) :
    ∀ (pts : List PointDesc) (base : Int) (acc : List ReqEntry),
      ∀ g ∈ mkGroups rw maxd base acc pts, g ≠ [] := by
  intro pts
  induction pts with
  | nil => intro base acc g hg; simp [mkGroups_nil] at hg
  | cons pt rest ih =>
    intro base acc g hg
    cases rest with
    | nil =>
      rw [mkGroups_last] at hg
      rcases List.mem_singleton.1 hg with hg
      subst hg; exact List.append_ne_nil_of_right_ne_nil _ (by simp)
    | cons next rest' =>
      cases hce : closeenough rw maxd pt next with
      | false =>
        rw [mkGroups_break rw maxd base acc pt next rest' hce] at hg
        rcases List.mem_cons.1 hg with hg | hg
        · subst hg; exact List.append_ne_nil_of_right_ne_nil _ (by simp)
        · exact ih _ _ g hg
      | true =>
        rw [mkGroups_cont rw maxd base acc pt next rest' hce] at hg
        exact ih _ _ g hg

/-- Every member of every emitted group is either an entry of the
initial accumulator or the entry built from one of the input points. -/
theorem mkGroups_mem_src (rw : RW) (maxd : Nat) :
    ∀ (pts : List PointDesc) (base : Int) (acc : List ReqEntry),
      ∀ g ∈ mkGroups rw maxd base acc pts, ∀ m ∈ g,
        m ∈ acc ∨ (m.1 = m.2.2.name ∧ m.2.2 ∈ pts) := by
  intro pts
  induction pts with
  | nil => intro base acc g hg; simp [mkGroups_nil] at hg
  | cons pt rest ih =>
    intro base acc g hg m hm
    cases rest with
    | nil =>
      rw [mkGroups_last] at hg
      rcases List.mem_singleton.1 hg with hg
      subst hg
      rcases List.mem_append.1 hm with h | h
      · exact Or.inl h
      · rcases List.mem_singleton.1 h with h
        subst h; exact Or.inr ⟨rfl, by rw [reqEntry_pt]; simp⟩
    | cons next rest' =>
      cases hce : closeenough rw maxd pt next with
      | false =>
        rw [mkGroups_break rw maxd base acc pt next rest' hce] at hg
        rcases List.mem_cons.1 hg with hg | hg
        · subst hg
          rcases List.mem_append.1 hm with h | h
          · exact Or.inl h
          · rcases List.mem_singleton.1 h with h
            subst h; exact Or.inr ⟨rfl, by rw [reqEntry_pt]; simp⟩
        · rcases ih _ _ g hg m hm with h | h
          · simp at h
          · exact Or.inr ⟨h.1, List.mem_cons_of_mem _ h.2⟩
      | true =>
        rw [mkGroups_cont rw maxd base acc pt next rest' hce] at hg
        rcases ih _ _ g hg m hm with h | h
        · rcases List.mem_append.1 h with h1 | h1
          · exact Or.inl h1
          · rcases List.mem_singleton.1 h1 with h1
            subst h1; exact Or.inr ⟨rfl, by rw [reqEntry_pt]; simp⟩
        · exact Or.inr ⟨h.1, List.mem_cons_of_mem _ h.2⟩

/-- An entry already in the accumulator ends up in one of the emitted
groups, as long as at least one input point remains. -/
theorem mkGroups_acc_mem (rw : RW) (maxd : Nat) :
    ∀ (pts : List PointDesc) (base : Int) (acc : List ReqEntry)
      (m : ReqEntry), m ∈ acc → pts ≠ [] →
      ∃ g ∈ mkGroups rw maxd base acc pts, m ∈ g := by
  intro pts
  induction pts with
  | nil => intro base acc m _ hne; exact absurd rfl hne
  | cons pt rest ih =>
    intro base acc m hm _
    cases rest with
    | nil =>
      rw [mkGroups_last]
      exact ⟨_, List.mem_singleton_self _, List.mem_append_left _ hm⟩
    | cons next rest' =>
      cases hce : closeenough rw maxd pt next with
      | false =>
        rw [mkGroups_break rw maxd base acc pt next rest' hce]
        exact ⟨_, List.mem_cons_self _ _, List.mem_append_left _ hm⟩
      | true =>
        rw [mkGroups_cont rw maxd base acc pt next rest' hce]
        exact ih _ _ m (List.mem_append_left _ hm) (List.cons_ne_nil _ _)

/-- Every input point ends up, with some offset, in one of the emitted
groups. -/
theorem mkGroups_covers (rw : RW) (maxd : Nat) :
    ∀ (pts : List PointDesc) (base : Int) (acc : List ReqEntry)
      (pt : PointDesc), pt ∈ pts →
      ∃ g ∈ mkGroups rw maxd base acc pts, ∃ off, (pt.name, off, pt) ∈ g := by
  intro pts
  induction pts with
  | nil => intro base acc pt hpt; simp at hpt
  | cons p rest ih =>
    intro base acc pt hpt
    rcases List.mem_cons.1 hpt with heq | hmem
    · subst heq
      cases rest with
      | nil =>
        rw [mkGroups_last]
        exact ⟨_, List.mem_singleton_self _, _,
          List.mem_append_right _ (List.mem_singleton_self _)⟩
      | cons next rest' =>
        cases hce : closeenough rw maxd pt next with
        | false =>
          rw [mkGroups_break rw maxd base acc pt next rest' hce]
          exact ⟨_, List.mem_cons_self _ _, _,
            List.mem_append_right _ (List.mem_singleton_self _)⟩
        | true =>
          rw [mkGroups_cont rw maxd base acc pt next rest' hce]
          obtain ⟨g, hg, hmg⟩ := mkGroups_acc_mem rw maxd (next :: rest')
            (reqBase acc base pt) (acc ++ [reqEntry acc base pt])
            (reqEntry acc base pt)
            (List.mem_append_right _ (List.mem_singleton_self _))
            (List.cons_ne_nil _ _)
          exact ⟨g, hg, _, hmg⟩
    · cases rest with
      | nil => simp at hmem
      | cons next rest' =>
        cases hce : closeenough rw maxd p next with
        | false =>
          rw [mkGroups_break rw maxd base acc p next rest' hce]
          obtain ⟨g, hg, hoff⟩ := ih _ _ pt hmem
          exact ⟨g, List.mem_cons_of_mem _ hg, hoff⟩
        | true =>
          rw [mkGroups_cont rw maxd base acc p next rest' hce]
          exact ih _ _ pt hmem

/-! One-step unfolding equations for the interleaved loop. -/

/-- The loop on an empty point list issues nothing. -/
theorem requestLoop_nil (slave : Nat) (bt : BlockType) (rw : RW)
    (maxd : Nat) (mem : BlockType → Int → Nat) (values : String → Nat)
    (base : Int) (acc : List ReqEntry) :
    requestLoop slave bt rw maxd mem values base acc [] = ([], .ok []) := rfl

/-- Read loop at the last point: the finished group's transaction is
issued and its reply entries collected. -/
theorem requestLoop_last_r (slave : Nat) (bt : BlockType) (maxd : Nat)
    (mem : BlockType → Int → Nat) (values : String → Nat) (base : Int)
    (acc : List ReqEntry) (pt : PointDesc) :
    requestLoop slave bt .r maxd mem values base acc [pt]
      = ([mkTxn slave bt .r values (acc ++ [reqEntry acc base pt])],
         .ok (groupEntries bt mem (acc ++ [reqEntry acc base pt]))) := by
  have h : requestLoop slave bt .r maxd mem values base acc [pt]
      = ([mkTxn slave bt .r values (acc ++ [reqEntry acc base pt])],
         .ok (groupEntries bt mem (acc ++ [reqEntry acc base pt]) ++ [])) := rfl
  simpa using h

/-- Write loop at the last point: the finished group's transaction is
issued; a None operation code aborts. -/
theorem requestLoop_last_w (slave : Nat) (bt : BlockType) (maxd : Nat)
    (mem : BlockType → Int → Nat) (values : String → Nat) (base : Int)
    (acc : List ReqEntry) (pt : PointDesc) :
    requestLoop slave bt .w maxd mem values base acc [pt]
      = match (mkTxn slave bt .w values (acc ++ [reqEntry acc base pt])).opcode with
        | none => ([mkTxn slave bt .w values (acc ++ [reqEntry acc base pt])],
                   .error .transportError)
        | some _ => ([mkTxn slave bt .w values (acc ++ [reqEntry acc base pt])],
                     .ok []) := rfl

/-- Read loop step with at least two points left. -/
theorem requestLoop_step_r (slave : Nat) (bt : BlockType) (maxd : Nat)
    (mem : BlockType → Int → Nat) (values : String → Nat) (base : Int)
    (acc : List ReqEntry) (pt next : PointDesc) (rest : List PointDesc) :
    requestLoop slave bt .r maxd mem values base acc (pt :: next :: rest)
      = if (!closeenough .r maxd pt next) = true then
          (mkTxn slave bt .r values (acc ++ [reqEntry acc base pt])
             :: (requestLoop slave bt .r maxd mem values (reqBase acc base pt)
                   [] (next :: rest)).1,
           (requestLoop slave bt .r maxd mem values (reqBase acc base pt)
              [] (next :: rest)).2.map
             fun es => groupEntries bt mem (acc ++ [reqEntry acc base pt]) ++ es)
        else requestLoop slave bt .r maxd mem values (reqBase acc base pt)
               (acc ++ [reqEntry acc base pt]) (next :: rest) := rfl

/-- Write loop step with at least two points left. -/
theorem requestLoop_step_w (slave : Nat) (bt : BlockType) (maxd : Nat)
    (mem : BlockType → Int → Nat) (values : String → Nat) (base : Int)
    (acc : List ReqEntry) (pt next : PointDesc) (rest : List PointDesc) :
    requestLoop slave bt .w maxd mem values base acc (pt :: next :: rest)
      = if (!closeenough .w maxd pt next) = true then
          (match (mkTxn slave bt .w values (acc ++ [reqEntry acc base pt])).opcode with
           | none => ([mkTxn slave bt .w values (acc ++ [reqEntry acc base pt])],
                      .error .transportError)
           | some _ =>
             (mkTxn slave bt .w values (acc ++ [reqEntry acc base pt])
                :: (requestLoop slave bt .w maxd mem values (reqBase acc base pt)
                      [] (next :: rest)).1,
              (requestLoop slave bt .w maxd mem values (reqBase acc base pt)
                 [] (next :: rest)).2))
        else requestLoop slave bt .w maxd mem values (reqBase acc base pt)
               (acc ++ [reqEntry acc base pt]) (next :: rest) := rfl

/-- The read loop equals one transaction plus one entry batch per
emitted group: the interleaved loop refines grouping followed by
execution. -/
theorem requestLoop_read (slave : Nat) (bt : BlockType) (maxd : Nat)
    (mem : BlockType → Int → Nat) (values : String → Nat) :
    ∀ (pts : List PointDesc) (base : Int) (acc : List ReqEntry),
      requestLoop slave bt .r maxd mem values base acc pts
        = ((mkGroups .r maxd base acc pts).map (mkTxn slave bt .r values),
           .ok ((mkGroups .r maxd base acc pts).flatMap (groupEntries bt mem))) := by
  intro pts
  induction pts with
  | nil => intro base acc; simp [requestLoop_nil, mkGroups_nil]
  | cons pt rest ih =>
    intro base acc
    cases rest with
    | nil =>
      rw [mkGroups_last, requestLoop_last_r]
      simp
    | cons next rest' =>
      cases hce : closeenough .r maxd pt next with
      | false =>
        rw [requestLoop_step_r, if_pos (by rw [hce]; rfl),
          mkGroups_break .r maxd base acc pt next rest' hce, ih]
        simp [Except.map]
      | true =>
        rw [requestLoop_step_r, if_neg (by rw [hce]; simp),
          mkGroups_cont .r maxd base acc pt next rest' hce, ih]

/-- The write loop's transaction trace: either every group's transaction
was issued and the loop succeeded, or a group with a None operation code
aborted it and the trace is the corresponding front part of the group
transactions. -/
theorem requestLoop_write (slave : Nat) (bt : BlockType) (maxd : Nat)
    (mem : BlockType → Int → Nat) (values : String → Nat) :
    ∀ (pts : List PointDesc) (base : Int) (acc : List ReqEntry),
      ((requestLoop slave bt .w maxd mem values base acc pts).1
          = (mkGroups .w maxd base acc pts).map (mkTxn slave bt .w values) ∧
        (requestLoop slave bt .w maxd mem values base acc pts).2 = .ok [])
      ∨ (∃ k, (requestLoop slave bt .w maxd mem values base acc pts).1
          = ((mkGroups .w maxd base acc pts).map
              (mkTxn slave bt .w values)).take k ∧
        (requestLoop slave bt .w maxd mem values base acc pts).2
          = .error .transportError) := by
  intro pts
  induction pts with
  | nil => intro base acc; exact Or.inl ⟨rfl, rfl⟩
  | cons pt rest ih =>
    intro base acc
    cases rest with
    | nil =>
      rw [mkGroups_last, requestLoop_last_w]
      cases hop : (mkTxn slave bt .w values (acc ++ [reqEntry acc base pt])).opcode with
      | none => exact Or.inr ⟨1, by simp, by simp⟩
      | some c => exact Or.inl ⟨by simp, by simp⟩
    | cons next rest' =>
      cases hce : closeenough .w maxd pt next with
      | false =>
        rw [requestLoop_step_w, if_pos (by rw [hce]; rfl),
          mkGroups_break .w maxd base acc pt next rest' hce]
        cases hop : (mkTxn slave bt .w values (acc ++ [reqEntry acc base pt])).opcode with
        | none => exact Or.inr ⟨1, by simp, by simp⟩
        | some c =>
          rcases ih (reqBase acc base pt) [] with ⟨h1, h2⟩ | ⟨k, h1, h2⟩
          · exact Or.inl ⟨by simp [h1], by simp [h2]⟩
          · refine Or.inr ⟨k + 1, ?_, by simp [h2]⟩
            simp [h1]
      | true =>
        rw [requestLoop_step_w, if_neg (by rw [hce]; simp),
          mkGroups_cont .w maxd base acc pt next rest' hce]
        exact ih (reqBase acc base pt) (acc ++ [reqEntry acc base pt])

/-! Equations and trace lemmas for the outer loop over block types. -/

/-- The outer loop over no block types issues nothing. -/
theorem runTypes_nil (slave : Nat) (rw : RW) (maxd : Nat)
    (mem : BlockType → Int → Nat) (values : String → Nat)
    (sp : List PointDesc) (points : List String) :
    runTypes slave rw maxd mem values sp points [] = ([], .ok []) := rfl

/-- One step of the outer loop over block types. -/
theorem runTypes_cons (slave : Nat) (rw : RW) (maxd : Nat)
    (mem : BlockType → Int → Nat) (values : String → Nat)
    (sp : List PointDesc) (points : List String) (bt : BlockType)
    (bts : List BlockType) :
    runTypes slave rw maxd mem values sp points (bt :: bts)
      = match (requestLoop slave bt rw maxd mem values 0 []
            (sortByAddr (pointsByType sp points bt))).2 with
        | .error e =>
          ((requestLoop slave bt rw maxd mem values 0 []
             (sortByAddr (pointsByType sp points bt))).1, .error e)
        | .ok entries =>
          ((requestLoop slave bt rw maxd mem values 0 []
             (sortByAddr (pointsByType sp points bt))).1
             ++ (runTypes slave rw maxd mem values sp points bts).1,
           (runTypes slave rw maxd mem values sp points bts).2.map
             fun es => entries ++ es) := rfl

/-- A read call runs every block type to completion: the trace holds one
transaction per emitted group and the collected entries are those of all
groups, in iteration order. -/
theorem runTypes_read (slave : Nat) (maxd : Nat)
    (mem : BlockType → Int → Nat) (values : String → Nat)
    (sp : List PointDesc) (points : List String) :
    ∀ bts, runTypes slave .r maxd mem values sp points bts
      = (bts.flatMap fun bt =>
           (typeGroups maxd sp points .r bt).map (mkTxn slave bt .r values),
         .ok (bts.flatMap fun bt =>
           (typeGroups maxd sp points .r bt).flatMap (groupEntries bt mem))) := by
  intro bts
  induction bts with
  | nil => simp [runTypes_nil]
  | cons bt bts ih =>
    rw [runTypes_cons, requestLoop_read]
    simp [ih, typeGroups, Except.map]

/-- The transaction trace of a call is always the front part of the
per-group transaction list, independently of where a write aborted. -/
theorem take_outside {α : Type} (l1 l2 : List α) (k : Nat) :
    l1.take k = (l1 ++ l2).take (min k l1.length) := by
  rw [List.take_append_of_le_length (min_le_right _ _), List.take_eq_take]
  simp [Nat.min_assoc]

/-- The outer loop's transaction trace is a front part of the per-group
transaction list over all block types. -/
theorem runTypes_trace (slave : Nat) (rw : RW) (maxd : Nat)
    (mem : BlockType → Int → Nat) (values : String → Nat)
    (sp : List PointDesc) (points : List String) :
    ∀ bts, ∃ k,
      (runTypes slave rw maxd mem values sp points bts).1
        = (bts.flatMap fun bt =>
            (typeGroups maxd sp points rw bt).map
              (mkTxn slave bt rw values)).take k := by
  intro bts
  induction bts with
  | nil => exact ⟨0, rfl⟩
  | cons bt bts ih =>
    obtain ⟨k, hk⟩ := ih
    cases rw with
    | r =>
      rw [runTypes_cons, requestLoop_read]
      refine ⟨((typeGroups maxd sp points .r bt).map
        (mkTxn slave bt .r values)).length + k, ?_⟩
      simp only [List.flatMap_cons, List.take_append, typeGroups]
      simp [hk, typeGroups]
    | w =>
      rw [runTypes_cons]
      rcases requestLoop_write slave bt maxd mem values
          (sortByAddr (pointsByType sp points bt)) 0 [] with ⟨h1, h2⟩ | ⟨k0, h1, h2⟩
      · rw [h2]
        refine ⟨((typeGroups maxd sp points .w bt).map
          (mkTxn slave bt .w values)).length + k, ?_⟩
        simp only [List.flatMap_cons, List.take_append, typeGroups]
        simp [h1, hk, typeGroups]
      · rw [h2]
        refine ⟨min k0 ((typeGroups maxd sp points .w bt).map
          (mkTxn slave bt .w values)).length, ?_⟩
        simp only [List.flatMap_cons]
        rw [← take_outside]
        simpa [typeGroups] using h1

/-- The transaction trace of _requestPoints is that of the outer loop,
whatever the final assembly step does. -/
theorem requestPoints_fst (client : ModbusClient) (mem : BlockType → Int → Nat)
    (arg : PointsArg) (rw : RW) (values : String → Nat) :
    (requestPoints client mem arg rw values).1
      = (runTypes client.slaveAddress rw client.MAXDISTANCE mem values
          client.slave_points (normalizePoints arg) blockTypeOrder).1 := by
  unfold requestPoints
  cases hres : (runTypes client.slaveAddress rw client.MAXDISTANCE mem values
      client.slave_points (normalizePoints arg) blockTypeOrder).2 with
  | error e => simp [hres]
  | ok replies =>
    cases rw with
    | r =>
      cases hl : lookupAll replies (normalizePoints arg) <;> simp [hres, hl]
    | w => simp [hres]

/-- A tagged group is among a call's groups precisely when it is one of
its block type's groups. -/
theorem mem_allGroups {maxd : Nat} {sp : List PointDesc}
    {points : List String} {rw : RW} {bt : BlockType} {g : List ReqEntry} :
    (bt, g) ∈ allGroups maxd sp points rw
      ↔ g ∈ typeGroups maxd sp points rw bt := by
  constructor
  · intro h
    rcases List.mem_flatMap.1 h with ⟨bt2, _, hmem⟩
    rcases List.mem_map.1 hmem with ⟨g2, hg2, heq⟩
    injection heq with h1 h2
    subst h1; subst h2
    exact hg2
  · intro h
    exact List.mem_flatMap.2 ⟨bt, by cases bt <;> simp [blockTypeOrder],
      List.mem_map.2 ⟨g, h, rfl⟩⟩

/-- The full result of a read call: one transaction per group, and the
final value list is the reply lookup over the caller's names, failing
when a name has no reply. -/
theorem readPoints_eq (client : ModbusClient) (mem : BlockType → Int → Nat)
    (arg : PointsArg) :
    readPoints client mem arg
      = ((allGroups client.MAXDISTANCE client.slave_points
            (normalizePoints arg) .r).map
           (mkTxnFor client.slaveAddress .r fun _ => 0),
         match lookupAll (readReplies client.MAXDISTANCE client.slave_points
             (normalizePoints arg) mem) (normalizePoints arg) with
         | some vals => .ok (some vals)
         | none => .error .unknownPoint) := by
  unfold readPoints requestPoints
  simp only [runTypes_read]
  simp only [readReplies, allGroups, List.map_flatMap]
  cases hl : lookupAll (blockTypeOrder.flatMap fun bt =>
      (typeGroups client.MAXDISTANCE client.slave_points (normalizePoints arg)
        RW.r bt).flatMap (groupEntries bt mem)) (normalizePoints arg) with
  | none => simp only [hl, List.map_map]; rfl
  | some vals => simp only [hl, List.map_map]; rfl

/-- C6: every TransactionGroup of a read request is executed by exactly
one transport call; that call's start address is the address of the
group's first member and its requested quantity is the group's last
member's offset plus one, covering the whole span including gap slots. -/
theorem C6_read_group_transactions (client : ModbusClient)
    (mem : BlockType → Int → Nat) (arg : PointsArg) :
    List.Forall₂
      (fun (p : BlockType × List ReqEntry) (t : Txn) =>
        p.2 ≠ [] ∧ t.startAddress = headAddr p.2 ∧
          t.payload = Payload.readQty (lastOffset p.2 + 1))
      (allGroups client.MAXDISTANCE client.slave_points
        (normalizePoints arg) .r)
      (readPoints client mem arg).1 := by
  simp only [readPoints_eq]
  rw [List.forall₂_map_right_iff, List.forall₂_same]
  intro p hp
  obtain ⟨bt, g⟩ := p
  refine ⟨?_, rfl, ?_⟩
  · have hg := mem_allGroups.1 hp
    simp only [typeGroups] at hg
    exact mkGroups_ne_nil .r client.MAXDISTANCE _ _ _ g hg
  · simp [mkTxnFor, mkTxn]

/-- The transaction trace of any call is a front part of the per-group
transaction list over the call's groups. -/
theorem requestPoints_trace (client : ModbusClient)
    (mem : BlockType → Int → Nat) (arg : PointsArg) (rw : RW)
    (values : String → Nat) :
    ∃ k, (requestPoints client mem arg rw values).1
      = ((allGroups client.MAXDISTANCE client.slave_points
            (normalizePoints arg) rw).map
          (mkTxnFor client.slaveAddress rw values)).take k := by
  obtain ⟨k, hk⟩ := runTypes_trace client.slaveAddress rw client.MAXDISTANCE
    mem values client.slave_points (normalizePoints arg) blockTypeOrder
  refine ⟨k, ?_⟩
  rw [requestPoints_fst, hk]
  congr 1
  simp only [allGroups, List.map_flatMap, List.map_map]
  rfl

/-- C7 (amended): every issued transaction carries the operation code
selected from its group's block type by direction and member count: the
read code for reads, and for writes the single-item write code for a
one-member group and the multi-item write code for a larger group. -/
theorem C7_opcode_selection (client : ModbusClient)
    (mem : BlockType → Int → Nat) (arg : PointsArg) (rw : RW)
    (values : String → Nat) :
    List.Forall₂
      (fun (p : BlockType × List ReqEntry) (t : Txn) =>
        t.opcode =
          if rw = .r then some (FUNCTION_MAP p.1).read
          else if p.2.length > 1 then (FUNCTION_MAP p.1).writeMultiple
          else (FUNCTION_MAP p.1).writeSingle)
      ((allGroups client.MAXDISTANCE client.slave_points
         (normalizePoints arg) rw).take
        (requestPoints client mem arg rw values).1.length)
      (requestPoints client mem arg rw values).1 := by
  obtain ⟨k, hk⟩ := requestPoints_trace client mem arg rw values
  have htr : (requestPoints client mem arg rw values).1
      = ((allGroups client.MAXDISTANCE client.slave_points
           (normalizePoints arg) rw).take
          (requestPoints client mem arg rw values).1.length).map
         (mkTxnFor client.slaveAddress rw values) := by
    rw [List.map_take, hk, List.take_eq_take]
    simp [List.length_take, Nat.min_assoc]
  nth_rewrite 2 [htr]
  rw [List.forall₂_map_right_iff, List.forall₂_same]
  intro p _
  obtain ⟨bt, g⟩ := p
  rfl

/-! Sorting facts and the geometric invariant of groups. -/

/-- The sorted per-type list is pairwise ascending by address. -/
theorem sortByAddr_sorted (pts : List PointDesc) :
    List.Pairwise addrLE (sortByAddr pts) :=
  List.sorted_insertionSort addrLE pts

/-- The sorted per-type list is a permutation of the input. -/
theorem sortByAddr_perm (pts : List PointDesc) :
    (sortByAddr pts).Perm pts :=
  List.perm_insertionSort addrLE pts

/-- Geometric invariant of the grouping loop: whenever the hypotheses
describe a consistent accumulator (offsets relative to the base, the
base being the first member's address, addresses non-decreasing and
below all remaining points) and the remaining points are sorted, every
emitted group has each member's offset equal to its address minus the
first member's address, and member addresses non-decreasing. -/
theorem mkGroups_good (rw : RW) (maxd : Nat) :
    ∀ (pts : List PointDesc) (base : Int) (acc : List ReqEntry),
      (∀ m ∈ acc, m.2.1 = getaddr m.2.2 - base) →
      (acc ≠ [] → headAddr acc = base) →
      List.Pairwise (fun a b : ReqEntry => getaddr a.2.2 ≤ getaddr b.2.2) acc →
      (∀ m ∈ acc, ∀ p ∈ pts, getaddr m.2.2 ≤ getaddr p) →
      List.Pairwise addrLE pts →
      ∀ g ∈ mkGroups rw maxd base acc pts,
        (∀ m ∈ g, m.2.1 = getaddr m.2.2 - headAddr g) ∧
        List.Pairwise (fun a b : ReqEntry => getaddr a.2.2 ≤ getaddr b.2.2) g := by
  intro pts
  induction pts with
  | nil => intro base acc _ _ _ _ _ g hg; simp [mkGroups_nil] at hg
  | cons pt rest ih =>
    intro base acc h1 h2 h3 h4 h5 g hg
    have hbase1 : ∀ m ∈ acc ++ [reqEntry acc base pt],
        m.2.1 = getaddr m.2.2 - reqBase acc base pt := by
      intro m hm
      rcases List.mem_append.1 hm with h | h
      · have hne : acc ≠ [] := List.ne_nil_of_mem h
        have hrb : reqBase acc base pt = base := by
          cases acc with
          | nil => exact absurd rfl hne
          | cons a as => rfl
        rw [hrb]; exact h1 m h
      · rcases List.mem_singleton.1 h with h
        subst h; exact reqEntry_off acc base pt
    have hhead1 : headAddr (acc ++ [reqEntry acc base pt])
        = reqBase acc base pt := by
      cases acc with
      | nil => simp [headAddr, reqBase, reqEntry]
      | cons a as =>
        have h2a := h2 (List.cons_ne_nil a as)
        simpa [headAddr, reqBase] using h2a
    have hpair1 : List.Pairwise
        (fun a b : ReqEntry => getaddr a.2.2 ≤ getaddr b.2.2)
        (acc ++ [reqEntry acc base pt]) := by
      refine List.pairwise_append.2 ⟨h3, List.pairwise_singleton _ _, ?_⟩
      intro a ha b hb
      rcases List.mem_singleton.1 hb with hb
      subst hb
      rw [reqEntry_pt]
      exact h4 a ha pt (List.mem_cons_self _ _)
    have hmono1 : ∀ m ∈ acc ++ [reqEntry acc base pt], ∀ p ∈ rest,
        getaddr m.2.2 ≤ getaddr p := by
      intro m hm p hp
      rcases List.mem_append.1 hm with h | h
      · exact h4 m h p (List.mem_cons_of_mem _ hp)
      · rcases List.mem_singleton.1 h with h
        subst h
        rw [reqEntry_pt]
        exact (List.pairwise_cons.1 h5).1 p hp
    have h5t : List.Pairwise addrLE rest := (List.pairwise_cons.1 h5).2
    cases rest with
    | nil =>
      rw [mkGroups_last] at hg
      rcases List.mem_singleton.1 hg with hg
      subst hg
      refine ⟨fun m hm => ?_, hpair1⟩
      rw [hhead1]
      exact hbase1 m hm
    | cons next rest2 =>
      cases hce : closeenough rw maxd pt next with
      | false =>
        rw [mkGroups_break rw maxd base acc pt next rest2 hce] at hg
        rcases List.mem_cons.1 hg with hg | hg
        · subst hg
          refine ⟨fun m hm => ?_, hpair1⟩
          rw [hhead1]
          exact hbase1 m hm
        · exact ih _ _ (by simp) (fun h => absurd rfl h) List.Pairwise.nil
            (by simp) h5t g hg
      | true =>
        rw [mkGroups_cont rw maxd base acc pt next rest2 hce] at hg
        exact ih _ _ hbase1 (fun _ => hhead1) hpair1 hmono1 h5t g hg

/-- Packaged invariant for the groups of one block type of one call:
every group is nonempty, member offsets equal address minus the first
member's address, and member addresses are non-decreasing. -/
theorem typeGroups_good (maxd : Nat) (sp : List PointDesc)
    (points : List String) (rw : RW) (bt : BlockType) :
    ∀ g ∈ typeGroups maxd sp points rw bt,
      g ≠ [] ∧
      (∀ m ∈ g, m.2.1 = getaddr m.2.2 - headAddr g) ∧
      List.Pairwise (fun a b : ReqEntry => getaddr a.2.2 ≤ getaddr b.2.2) g := by
  intro g hg
  simp only [typeGroups] at hg
  refine ⟨mkGroups_ne_nil rw maxd _ _ _ g hg, ?_⟩
  exact mkGroups_good rw maxd _ 0 [] (by simp) (fun h => absurd rfl h)
    List.Pairwise.nil (by simp) (sortByAddr_sorted _) g hg

/-- C8: a TransactionGroup never contains members of two different
block types: every member of a group tagged with block type bt is a
point of block type bt. -/
theorem C8_type_isolation (client : ModbusClient) (arg : PointsArg)
    (rw : RW) (bt : BlockType) (g : List ReqEntry) (m : ReqEntry)
    (hg : (bt, g) ∈ allGroups client.MAXDISTANCE client.slave_points
      (normalizePoints arg) rw) (hm : m ∈ g) :
    m.2.2.blocktype = bt := by
  have hg2 := mem_allGroups.1 hg
  simp only [typeGroups] at hg2
  rcases mkGroups_mem_src rw client.MAXDISTANCE _ 0 [] g hg2 m hm with h | h
  · simp at h
  · have hmem := (sortByAddr_perm _).mem_iff.1 h.2
    have := (List.mem_filter.1 hmem).2
    exact of_decide_eq_true this

/-- C9: in every TransactionGroup of any call, the transaction's start
address is the group's first member's address, each member's recorded
offset is its address minus that start address, and the offsets are
non-negative and non-decreasing in member order. -/
theorem C9_offset_geometry (client : ModbusClient) (arg : PointsArg)
    (rw : RW) (bt : BlockType) (g : List ReqEntry)
    (hg : (bt, g) ∈ allGroups client.MAXDISTANCE client.slave_points
      (normalizePoints arg) rw) :
    g ≠ [] ∧
    (∀ slave values, (mkTxn slave bt rw values g).startAddress = headAddr g) ∧
    (∀ m ∈ g, m.2.1 = getaddr m.2.2 - headAddr g) ∧
    (∀ m ∈ g, 0 ≤ m.2.1) ∧
    List.Pairwise (fun a b : Int => a ≤ b) (g.map fun m => m.2.1) := by
  obtain ⟨hne, hoff, hpair⟩ :=
    typeGroups_good client.MAXDISTANCE client.slave_points
      (normalizePoints arg) rw bt g (mem_allGroups.1 hg)
  have hhead : ∀ m ∈ g, headAddr g ≤ getaddr m.2.2 := by
    cases g with
    | nil => exact absurd rfl hne
    | cons m0 gs =>
      intro m hm
      rcases List.mem_cons.1 hm with h | h
      · subst h; exact le_refl _
      · exact (List.pairwise_cons.1 hpair).1 m h
  refine ⟨hne, fun slave values => rfl, hoff, ?_, ?_⟩
  · intro m hm
    rw [hoff m hm]
    exact sub_nonneg.2 (hhead m hm)
  · rw [List.pairwise_map]
    refine List.Pairwise.imp_of_mem ?_ hpair
    intro a b ha hb hab
    rw [hoff a ha, hoff b hb]
    exact sub_le_sub_right hab _

/-- Witness for C8: the hypotheses are satisfiable at the read grouping
example, whose single holding-register group contains the member for the
point b at address 12. -/
theorem C8_type_isolation_witness :
    (("b", 2, (⟨"b", .holdingRegisters, 12⟩ : PointDesc)) :
      ReqEntry).2.2.blocktype = .holdingRegisters :=
  C8_type_isolation clientRead4 (.many ["a", "b", "c", "d"]) .r
    .holdingRegisters
    [("a", 0, ⟨"a", .holdingRegisters, 10⟩),
     ("b", 2, ⟨"b", .holdingRegisters, 12⟩),
     ("c", 4, ⟨"c", .holdingRegisters, 14⟩),
     ("d", 15, ⟨"d", .holdingRegisters, 25⟩)]
    ("b", 2, ⟨"b", .holdingRegisters, 12⟩) (by decide) (by decide)

/-- Witness for C9: the hypotheses are satisfiable at the read grouping
example; its single holding-register group is nonempty. -/
theorem C9_offset_geometry_witness :
    ([("a", 0, (⟨"a", .holdingRegisters, 10⟩ : PointDesc)),
      ("b", 2, ⟨"b", .holdingRegisters, 12⟩),
      ("c", 4, ⟨"c", .holdingRegisters, 14⟩),
      ("d", 15, ⟨"d", .holdingRegisters, 25⟩)] : List ReqEntry) ≠ [] :=
  (C9_offset_geometry clientRead4 (.many ["a", "b", "c", "d"]) .r
    .holdingRegisters
    [("a", 0, ⟨"a", .holdingRegisters, 10⟩),
     ("b", 2, ⟨"b", .holdingRegisters, 12⟩),
     ("c", 4, ⟨"c", .holdingRegisters, 14⟩),
     ("d", 15, ⟨"d", .holdingRegisters, 25⟩)] (by decide)).1

/-! Reply dictionary lemmas and the read result theorems. -/

/-- One-step unfolding of the dictionary lookup. -/
theorem dictGet_cons (k : String) (w : Nat) (rest : List (String × Nat))
    (n : String) :
    dictGet ((k, w) :: rest) n
      = match dictGet rest n with
        | some u => some u
        | none => if k = n then some w else none := rfl

/-- A successful dictionary lookup returns a binding of the list. -/
theorem dictGet_mem : ∀ (l : List (String × Nat)) (n : String) (v : Nat),
    dictGet l n = some v → (n, v) ∈ l := by
  intro l
  induction l with
  | nil => intro n v h; simp [dictGet] at h
  | cons e rest ih =>
    obtain ⟨k, w⟩ := e
    intro n v h
    rw [dictGet_cons] at h
    cases hrec : dictGet rest n with
    | some u =>
      rw [hrec] at h
      have hu := Option.some.inj h
      subst hu
      exact List.mem_cons_of_mem _ (ih n u hrec)
    | none =>
      rw [hrec] at h
      by_cases hk : k = n
      · rw [if_pos hk] at h
        have hw := Option.some.inj h
        subst hw; subst hk
        exact List.mem_cons_self _ _
      · rw [if_neg hk] at h
        exact absurd h (by simp)

/-- A name bound in the list has a successful dictionary lookup. -/
theorem dictGet_exists : ∀ (l : List (String × Nat)) (n : String) (v : Nat),
    (n, v) ∈ l → ∃ w, dictGet l n = some w := by
  intro l
  induction l with
  | nil => intro n v h; simp at h
  | cons e rest ih =>
    obtain ⟨k, w⟩ := e
    intro n v h
    rw [dictGet_cons]
    cases hrec : dictGet rest n with
    | some u => exact ⟨u, rfl⟩
    | none =>
      rcases List.mem_cons.1 h with heq | hmem
      · injection heq with h1 h2
        subst h1
        exact ⟨w, by rw [if_pos rfl]⟩
      · obtain ⟨u, hu⟩ := ih n v hmem
        rw [hu] at hrec
        exact absurd hrec (by simp)

/-- Every block type occurs in the iteration order. -/
theorem mem_blockTypeOrder (bt : BlockType) : bt ∈ blockTypeOrder := by
  cases bt <;> simp [blockTypeOrder]

/-- Soundness of the collected replies: every reply entry is the memory
value, at its own address and block type, of a directory point whose
name was requested. -/
theorem readReplies_sound (maxd : Nat) (sp : List PointDesc)
    (names : List String) (mem : BlockType → Int → Nat) :
    ∀ e ∈ readReplies maxd sp names mem,
      ∃ pt, pt ∈ sp ∧ names.contains pt.name = true ∧
        e = (pt.name, mem pt.blocktype (getaddr pt)) := by
  intro e he
  rcases List.mem_flatMap.1 he with ⟨bt, _, he2⟩
  rcases List.mem_flatMap.1 he2 with ⟨g, hg, he3⟩
  simp only [groupEntries] at he3
  rcases List.mem_map.1 he3 with ⟨m, hm, he4⟩
  obtain ⟨hne, hoff, hpair⟩ := typeGroups_good maxd sp names .r bt g hg
  have hsrc := mkGroups_mem_src .r maxd _ 0 [] g
    (by simpa [typeGroups] using hg) m hm
  rcases hsrc with h | h
  · simp at h
  · have hmem := (sortByAddr_perm _).mem_iff.1 h.2
    have h1 := List.mem_filter.1 hmem
    have h2 := List.mem_filter.1 h1.1
    refine ⟨m.2.2, h2.1, h2.2, ?_⟩
    have haddr : headAddr g + m.2.1 = getaddr m.2.2 := by
      rw [hoff m hm]; ring
    have hbt : m.2.2.blocktype = bt := of_decide_eq_true h1.2
    rw [← he4, h.1, haddr, hbt]

/-- Completeness of the collected replies: every directory point whose
name was requested contributes its reply entry. -/
theorem readReplies_complete (maxd : Nat) (sp : List PointDesc)
    (names : List String) (mem : BlockType → Int → Nat) :
    ∀ pt ∈ sp, names.contains pt.name = true →
      (pt.name, mem pt.blocktype (getaddr pt))
        ∈ readReplies maxd sp names mem := by
  intro pt hpt hname
  have hmem1 : pt ∈ pointsByType sp names pt.blocktype := by
    simp only [pointsByType]
    exact List.mem_filter.2 ⟨List.mem_filter.2 ⟨hpt, hname⟩, by simp⟩
  have hmem2 : pt ∈ sortByAddr (pointsByType sp names pt.blocktype) :=
    (sortByAddr_perm _).mem_iff.2 hmem1
  obtain ⟨g, hg, off, hoffmem⟩ := mkGroups_covers .r maxd _ 0 [] pt hmem2
  have hgt : g ∈ typeGroups maxd sp names .r pt.blocktype := by
    simpa [typeGroups] using hg
  obtain ⟨hne, hoff, _⟩ :=
    typeGroups_good maxd sp names .r pt.blocktype g hgt
  refine List.mem_flatMap.2 ⟨pt.blocktype, mem_blockTypeOrder _,
    List.mem_flatMap.2 ⟨g, hgt, ?_⟩⟩
  simp only [groupEntries]
  refine List.mem_map.2 ⟨(pt.name, off, pt), hoffmem, ?_⟩
  have h2 : headAddr g + off = getaddr pt := by
    have h3 := hoff _ hoffmem
    simp only at h3
    rw [h3]; ring
  simp [h2]

/-- With unique directory names, the reply dictionary resolves every
requested resolving name to the memory value of its descriptor. -/
theorem dictGet_readReplies (maxd : Nat) (sp : List PointDesc)
    (names : List String) (mem : BlockType → Int → Nat)
    (hnodup : (sp.map PointDesc.name).Nodup) (n : String) (pt : PointDesc)
    (hfind : resolveDesc sp n = some pt) (hn : n ∈ names) :
    dictGet (readReplies maxd sp names mem) n
      = some (mem pt.blocktype (getaddr pt)) := by
  have hfind2 : sp.find? (fun q => q.name == n) = some pt := hfind
  have hptsp : pt ∈ sp := List.mem_of_find?_eq_some hfind2
  have hbeq := List.find?_some hfind2
  have hpn : pt.name = n := beq_iff_eq.1 hbeq
  have hcontains : names.contains pt.name = true := by
    rw [hpn]; exact List.elem_eq_true_of_mem hn
  have hentry := readReplies_complete maxd sp names mem pt hptsp hcontains
  rw [hpn] at hentry
  obtain ⟨w, hw⟩ := dictGet_exists _ n _ hentry
  obtain ⟨pt2, hpt2sp, _, he⟩ :=
    readReplies_sound maxd sp names mem _ (dictGet_mem _ n w hw)
  injection he with he1 he2
  have hpteq : pt2 = pt := by
    apply List.inj_on_of_nodup_map hnodup hpt2sp hptsp
    rw [hpn, ← he1]
  rw [hw, he2, hpteq]

/-- When every requested name has a reply of the expected value, the
final assembly returns exactly the mapped list, in request order. -/
theorem lookupAll_eq_map (replies : List (String × Nat)) (f : String → Nat) :
    ∀ (names : List String),
      (∀ n ∈ names, dictGet replies n = some (f n)) →
      lookupAll replies names = some (names.map f) := by
  intro names
  induction names with
  | nil => intro _; rfl
  | cons n ns ih =>
    intro h
    have hn := h n (List.mem_cons_self _ _)
    have hns := ih fun m hm => h m (List.mem_cons_of_mem _ hm)
    simp only [lookupAll]
    rw [hn, hns]
    rfl

/-- Shared result theorem for reads: if the directory names are unique
and every requested name resolves, the call returns the resolved values
in the caller's requested order. -/
theorem requestPoints_read_ok (client : ModbusClient)
    (mem : BlockType → Int → Nat) (arg : PointsArg)
    (hnodup : (client.slave_points.map PointDesc.name).Nodup)
    (hres : ∀ n ∈ normalizePoints arg,
      (resolveDesc client.slave_points n).isSome = true) :
    (readPoints client mem arg).2
      = .ok (some ((normalizePoints arg).map
          (resolvedValue mem client.slave_points))) := by
  have hlk : lookupAll (readReplies client.MAXDISTANCE client.slave_points
        (normalizePoints arg) mem) (normalizePoints arg)
      = some ((normalizePoints arg).map
          (resolvedValue mem client.slave_points)) := by
    apply lookupAll_eq_map
    intro n hn
    obtain ⟨pt, hpt⟩ := Option.isSome_iff_exists.1 (hres n hn)
    rw [dictGet_readReplies client.MAXDISTANCE client.slave_points
      (normalizePoints arg) mem hnodup n pt hpt hn]
    simp [resolvedValue, hpt]
  simp only [readPoints_eq, hlk]

/-- C3: for every sequence of resolving names (unique in the
directory), readPoints returns the ok result mapping each requested name
to its resolved value, aligned to the caller's original order; the
length matches by construction of List.map and duplicated names receive
the same resolved value because the result is a function of the name. -/
theorem C3_request_order_alignment (client : ModbusClient)
    (mem : BlockType → Int → Nat) (N : List String)
    (hnodup : (client.slave_points.map PointDesc.name).Nodup)
    (hres : ∀ n ∈ N, (resolveDesc client.slave_points n).isSome = true) :
    (readPoints client mem (.many N)).2
      = .ok (some (N.map (resolvedValue mem client.slave_points))) :=
  requestPoints_read_ok client mem (.many N) hnodup hres

/-- Witness for C3: an unsorted request with a duplicate name against
the four-point directory returns exactly the per-name resolved values in
request order. -/
theorem C3_request_order_alignment_witness :
    (readPoints clientRead4 memTest (.many ["d", "a", "c", "a"])).2
      = .ok (some (["d", "a", "c", "a"].map
          (resolvedValue memTest clientRead4.slave_points))) :=
  C3_request_order_alignment clientRead4 memTest ["d", "a", "c", "a"]
    (by decide) (by decide)

/-- C10: a bare name passed to readPoints is wrapped into a one-element
sequence, and when the name resolves the call returns a one-element
tuple holding that point's value. -/
theorem C10_bare_name_read (client : ModbusClient)
    (mem : BlockType → Int → Nat) (n : String)
    (hnodup : (client.slave_points.map PointDesc.name).Nodup)
    (hres : (resolveDesc client.slave_points n).isSome = true) :
    (readPoints client mem (.single n)).2
      = .ok (some [resolvedValue mem client.slave_points n]) :=
  requestPoints_read_ok client mem (.single n) hnodup
    (by intro m hm; rcases List.mem_singleton.1 hm with h; subst h; exact hres)

/-- Witness for C10: reading the bare name a from the one-coil
directory yields the one-element result for a. -/
theorem C10_bare_name_read_witness :
    (readPoints clientSmall memTest (.single "a")).2
      = .ok (some [resolvedValue memTest clientSmall.slave_points "a"]) :=
  C10_bare_name_read clientSmall memTest "a" (by decide) (by decide)

/-- C1: the specification asks that read points at addresses 10, 12, 14,
25 of one block type with threshold 5 form two groups, one at 10, 12, 14
and one at 25.  The code instead forms a single group of all four points
(offsets 0, 2, 4, 15) and issues a single read transaction of quantity
16 starting at 10: closeenough subtracts the current point's address
from the next one's in the wrong order, so after the ascending sort it
always holds and no gap ever starts a new group. -/
theorem C1_read_grouping_code_behavior :
    typeGroups 5 clientRead4.slave_points ["a", "b", "c", "d"] .r
        .holdingRegisters
      = [[("a", 0, ⟨"a", .holdingRegisters, 10⟩),
          ("b", 2, ⟨"b", .holdingRegisters, 12⟩),
          ("c", 4, ⟨"c", .holdingRegisters, 14⟩),
          ("d", 15, ⟨"d", .holdingRegisters, 25⟩)]] ∧
    (readPoints clientRead4 memTest (.many ["a", "b", "c", "d"])).1
      = [{ slave := 1, opcode := some 3, startAddress := 10,
           payload := .readQty 16 }] :=
  ⟨rfl, rfl⟩

/-- C2: the specification asks that write targets at addresses 10, 11,
13 form two groups, 10, 11 and 13, because write grouping requires a gap
of exactly 1.  The code instead forms a single group of all three points
and issues one multi-register write of the three values starting at
address 10, so the value intended for address 13 is sent to the slot of
address 12: the same operand-order slip in closeenough makes the gap
test vacuous for writes as well. -/
theorem C2_write_grouping_code_behavior :
    (allGroups 5 clientWrite3.slave_points
        (dictKeys [("x", 7), ("y", 8), ("z", 9)]) .w).map
        (fun p => p.2.map fun m => getaddr m.2.2)
      = [[10, 11, 13]] ∧
    (writePoints clientWrite3 memTest [("x", 7), ("y", 8), ("z", 9)]).1
      = [{ slave := 1, opcode := some 16, startAddress := 10,
           payload := .writeMany [7, 8, 9] }] :=
  ⟨rfl, rfl⟩

/-- C4: the claim says a write against a block type with no write
operation codes raises NotWritableError and issues zero transactions.
The code instead issues one call to the transport with operation code
None (FUNCTION_MAP's write slots for DiscreteInput), and the failure the
caller sees is whatever the transport raises on the unsupported code,
not a NotWritableError; the source marks this itself with a bug note
below _requestPoints. -/
theorem C4_read_only_write_code_behavior :
    (writePoints clientReadOnly memTest [("p", 1)]).1
      = [{ slave := 1, opcode := none, startAddress := 3,
           payload := .writeOne 1 }] ∧
    (writePoints clientReadOnly memTest [("p", 1)]).2
      = .error .transportError :=
  ⟨rfl, rfl⟩

/-- C5: the claim says both readPoints and writePoints fail with
UnknownPointError when a requested name has no descriptor.  The read
path does fail (the replies lookup of line 202 raises), but the write
path silently drops the unknown name: writing the unresolvable name
ghost issues zero transactions and returns success. -/
theorem C5_unknown_name_code_behavior :
    (writePoints clientSmall memTest [("ghost", 1)]).1 = [] ∧
    (writePoints clientSmall memTest [("ghost", 1)]).2 = .ok none ∧
    (readPoints clientSmall memTest (.many ["ghost"])).2
      = .error .unknownPoint :=
  ⟨rfl, rfl, rfl⟩

/-- C7 counterexample: a read of the single coil point x produces a
one-member TransactionGroup, yet the transaction issued for it carries
the block's read operation code 1 (READ_COILS), not the block's
single-item operation code, which FUNCTION_MAP gives as 5
(WRITE_SINGLE_COIL): the claim as stated fails on one-member read
groups. -/
theorem C7_single_member_read_counterexample :
    allGroups 5 clientOneCoil.slave_points ["x"] .r
      = [(.coils, [("x", 0, ⟨"x", .coils, 4⟩)])] ∧
    (readPoints clientOneCoil memTest (.many ["x"])).1.map Txn.opcode
      = [some (FUNCTION_MAP .coils).read] ∧
    (FUNCTION_MAP .coils).read = 1 ∧
    (FUNCTION_MAP .coils).writeSingle = some 5 ∧
    some (FUNCTION_MAP .coils).read ≠ (FUNCTION_MAP .coils).writeSingle :=
  ⟨rfl, rfl, rfl, rfl, by decide⟩

end ICS
